import Mathlib

/- Shallow embedding of the Ledger Replay Engine of open-simperfi: the
dashboard module's `calculateHoldings`, `calculateRealizedPnL` and
`calculatePortfolioHistory`.  Numbers are modelled as rationals; `Option`
models the optional (undefined/null) fields of the source records; calendar
days are modelled as integer day indices (the source compares day-truncated
dates and ISO date strings, both order-isomorphic to day indices). -/

/-- A ledger entry: one signed asset movement, child of a trade.  Mirrors the
source's `LedgerEntry` fields used by the engine. -/
structure LedgerEntry where
  id : Option Int
  tradeId : Option Int
  assetTicker : String
  amount : Rat
  usdPriceAtTime : Option Rat
deriving DecidableEq

/-- A trade: the parent record of one event; `date` is its day-truncated
timestamp. -/
structure Trade where
  id : Option Int
  type : String
  date : Int
deriving DecidableEq

/-- The derived per-asset holding produced by `calculateHoldings`. -/
structure AssetHolding where
  ticker : String
  amount : Rat
  avgBuyPrice : Rat
  lastBuyPrice : Rat
  totalCostBasis : Rat
deriving DecidableEq

/-- The source's `entry.usdPriceAtTime || 0`: an absent snapshot (and a zero
one) yields 0. -/
def priceOf (e : LedgerEntry) : Rat := e.usdPriceAtTime.getD 0

/-- The sort key `(a.id || 0)` used when ordering a ticker's history. -/
def entryKey (e : LedgerEntry) : Int := e.id.getD 0

/-- One step of building `tradeTypeMap`: a trade whose id equals `tid`
overwrites the accumulated type; trades without id are skipped. -/
def tradeTypeStep (tid : Int) (acc : Option String) (tr : Trade) : Option String :=
  match tr.id with
  | some i => if i = tid then some tr.type else acc
  | none => acc

/-- `tradeTypeMap.get tid`: the type of the last trade in the list carrying
id `tid` (the map is built by iterating the trade list, later writes win). -/
def tradeTypeOf (trades : List Trade) (tid : Int) : Option String :=
  trades.foldl (tradeTypeStep tid) none

/-- The trade type looked up for an entry (undefined when the entry carries no
trade id). -/
def entryTradeType (trades : List Trade) (e : LedgerEntry) : Option String :=
  match e.tradeId with
  | some t => tradeTypeOf trades t
  | none => none

/-- The excluded-trade-ids filter predicate: an entry without a trade id is
kept; any other entry is kept unless its trade id is in the transfer set. -/
def keepEntry (ids : List Int) (e : LedgerEntry) : Bool :=
  match e.tradeId with
  | none => true
  | some t => ! ids.contains t

/-- The transfer filter, applied only when a transfer-id set is supplied. -/
def filterTransfers (transferTradeIds : Option (List Int))
    (entries : List LedgerEntry) : List LedgerEntry :=
  match transferTradeIds with
  | none => entries
  | some ids => entries.filter (keepEntry ids)

/-- First-occurrence list of tickers: the grouping keys in insertion order. -/
def tickersIn (entries : List LedgerEntry) : List String :=
  entries.foldl
    (fun acc e => if acc.contains e.assetTicker then acc else acc ++ [e.assetTicker]) []

/-- Running state of the per-ticker fold: quantity, cost basis, last buy. -/
structure FoldState where
  totalQty : Rat
  totalCost : Rat
  lastBuy : Rat
deriving DecidableEq

/-- The fold starts from zero quantity, zero cost, zero last-buy price. -/
def initState : FoldState := ⟨0, 0, 0⟩

/-- One step of the per-ticker fold, mirroring the entry loop of
`calculateHoldings`: a positive gain entry adds quantity only; any other
positive entry adds `qty * price` to cost, `qty` to quantity and records a
positive price as last buy; a non-positive entry removes `|qty| * avgPrice`
from cost and `|qty|` from quantity, where `avgPrice` is `cost / qty` when
the running quantity is positive and 0 otherwise. -/
def foldStep (trades : List Trade) (s : FoldState) (e : LedgerEntry) : FoldState :=
  let qty := e.amount
  if 0 < qty then
    if entryTradeType trades e = some "gain" then
      { s with totalQty := s.totalQty + qty }
    else
      let price := priceOf e
      { totalQty := s.totalQty + qty
        totalCost := s.totalCost + qty * price
        lastBuy := if 0 < price then price else s.lastBuy }
  else
    let absQty := |qty|
    let avgPrice := if 0 < s.totalQty then s.totalCost / s.totalQty else 0
    { s with
        totalQty := s.totalQty - absQty
        totalCost := s.totalCost - absQty * avgPrice }

/-- Insert an entry after all entries of key ≤ its own (stable ascending
insert, as a stable comparator sort does). -/
def insortEntry (e : LedgerEntry) : List LedgerEntry → List LedgerEntry
  | [] => [e]
  | x :: xs => if entryKey x ≤ entryKey e then x :: insortEntry e xs else e :: x :: xs

/-- Insert every element of the second list, left to right, into the
accumulator. -/
def insertAll (acc : List LedgerEntry) : List LedgerEntry → List LedgerEntry
  | [] => acc
  | e :: es => insertAll (insortEntry e acc) es

/-- Stable ascending sort by `(id || 0)`: the source's `history.sort`. -/
def sortEntries (l : List LedgerEntry) : List LedgerEntry := insertAll [] l

/-- The dust threshold 1e-8 of the source. -/
def dustEps : Rat := 1 / 100000000

/-- Snap a near-zero quantity, and with it the cost basis, to exactly zero. -/
def dustSnap (s : FoldState) : FoldState :=
  if |s.totalQty| < dustEps then { s with totalQty := 0, totalCost := 0 } else s

/-- Fold a (sorted) history of one ticker from the initial state. -/
def foldEntries (trades : List Trade) (l : List LedgerEntry) : FoldState :=
  l.foldl (foldStep trades) initState

/-- Post-fold handling of one ticker: dust-snap, final average price, emit the
holding only when the final quantity is strictly positive. -/
def finishTicker (ticker : String) (s : FoldState) : Option AssetHolding :=
  if 0 < (dustSnap s).totalQty then
    some ⟨ticker, (dustSnap s).totalQty, (dustSnap s).totalCost / (dustSnap s).totalQty,
      (dustSnap s).lastBuy, (dustSnap s).totalCost⟩
  else none

/-- Holdings contribution of one ticker's (unsorted) history. -/
def holdingsForTicker (trades : List Trade) (ticker : String)
    (history : List LedgerEntry) : Option AssetHolding :=
  finishTicker ticker (foldEntries trades (sortEntries history))

/-- Ascending insert of a holding by ticker. -/
def insortHolding (h : AssetHolding) : List AssetHolding → List AssetHolding
  | [] => [h]
  | x :: xs => if x.ticker ≤ h.ticker then x :: insortHolding h xs else h :: x :: xs

/-- Final ascending sort of the results by ticker. -/
def sortHoldings (l : List AssetHolding) : List AssetHolding :=
  l.foldl (fun acc h => insortHolding h acc) []

/-- The Holdings Calculator: filter transfers, group by ticker, sort each
group by id, fold, dust-snap, emit positive holdings, sort by ticker. -/
def calculateHoldings (entries : List LedgerEntry) (trades : List Trade)
    (transferTradeIds : Option (List Int)) : List AssetHolding :=
  let filtered := filterTransfers transferTradeIds entries
  let results := (tickersIn filtered).filterMap (fun tk =>
    holdingsForTicker trades tk (filtered.filter (fun e => e.assetTicker == tk)))
  sortHoldings results

/-- C1 scenario: buy 1 @ $10, buy 1 @ $20, then a negative entry of 1 unit. -/
def c1Entries : List LedgerEntry :=
  [⟨some 1, some 1, "BTC", 1, some 10⟩,
   ⟨some 2, some 2, "BTC", 1, some 20⟩,
   ⟨some 3, some 3, "BTC", -1, none⟩]

/-- Parent trades of the C1 scenario. -/
def c1Trades : List Trade :=
  [⟨some 1, "buy", 0⟩, ⟨some 2, "buy", 1⟩, ⟨some 3, "sell", 2⟩]

/-- C1: for a single asset, two positive non-gain entries of 1 unit at
snapshot prices $10 and $20 followed by a negative entry of 1 unit yield a
holding with quantity 1, weighted-average cost $15 and total cost basis $15
(the last buy price stays $20). -/
theorem C1_weighted_average_example :
    calculateHoldings c1Entries c1Trades (some []) = [⟨"BTC", 1, 15, 20, 15⟩] := by
  simp [calculateHoldings, filterTransfers, keepEntry, tickersIn, holdingsForTicker,
    foldEntries, sortEntries, insertAll, insortEntry, entryKey, foldStep, entryTradeType,
    tradeTypeOf, tradeTypeStep, priceOf, finishTicker, dustSnap, dustEps, initState, sortHoldings,
    insortHolding, c1Entries, c1Trades, List.filterMap_cons, List.filter_cons]
  norm_num [insortHolding]

/-- Claim variant of the negative-entry step for C2, following the claim's
words: the average price is guarded by `costBasis > 0` instead of the
source's `quantity > 0`.  Positive entries are stepped as in `foldStep`. -/
def foldStepCostGuard (trades : List Trade) (s : FoldState) (e : LedgerEntry) : FoldState :=
  let qty := e.amount
  if 0 < qty then
    foldStep trades s e
  else
    let absQty := |qty|
    let avgPrice := if 0 < s.totalCost then s.totalCost / s.totalQty else 0
    { s with
        totalQty := s.totalQty - absQty
        totalCost := s.totalCost - absQty * avgPrice }

/-- C2 counterexample scenario: over-sell, re-buy at $10, then two further
negative entries; after the third entry the running state has cost basis 10
with quantity -1, where the two guards disagree. -/
def c2Entries : List LedgerEntry :=
  [⟨some 1, none, "X", -1, none⟩,
   ⟨some 2, none, "X", 1, some 10⟩,
   ⟨some 3, none, "X", -1, none⟩,
   ⟨some 4, none, "X", -1, none⟩]

/-- C2 counterexample: on the single-asset history `c2Entries` the source fold
ends with cost basis 10, while folding with the claim's cost-guarded
average-price formula ends with cost basis 20; so the claim's description of
the negative branch (guard on the cost basis) does not match the code (guard
on the quantity). -/
theorem C2_counterexample :
    (foldEntries [] c2Entries).totalCost = 10 ∧
      (c2Entries.foldl (foldStepCostGuard []) initState).totalCost = 20 ∧
      (10 : Rat) ≠ 20 := by
  refine ⟨?_, ?_, by norm_num⟩ <;>
    · simp [foldEntries, foldStep, foldStepCostGuard, initState, entryTradeType, priceOf,
        c2Entries]
      norm_num

/-- C2 (amended): for every negative entry the source computes the per-unit
average price as costBasis/quantity when the running QUANTITY (not the cost
basis) is strictly positive and as 0 otherwise, and subtracts
`|amount| * avgPrice` from the cost basis and `|amount|` from the quantity,
regardless of the entry's trade kind. -/
theorem C2_negative_entry_step (trades : List Trade) (s : FoldState) (e : LedgerEntry)
    (h : e.amount < 0) :
    foldStep trades s e =
      ⟨s.totalQty - |e.amount|,
       s.totalCost - |e.amount| * (if 0 < s.totalQty then s.totalCost / s.totalQty else 0),
       s.lastBuy⟩ := by
  simp [foldStep, not_lt.mpr h.le]

/-- C2 witness: the amended negative-entry step at a concrete state and
entry. -/
theorem C2_negative_entry_step_witness :
    foldStep [] ⟨3, 30, 7⟩ ⟨some 1, some 5, "A", -2, some 9⟩ =
      ⟨3 - |(-2 : Rat)|,
       30 - |(-2 : Rat)| * (if 0 < (3 : Rat) then (30 : Rat) / 3 else 0),
       7⟩ :=
  C2_negative_entry_step [] ⟨3, 30, 7⟩ ⟨some 1, some 5, "A", -2, some 9⟩ (by norm_num)

/-- C10: an entry whose trade id is undefined or null is always kept by the
excluded-trade-ids filter, and when its quantity is positive it is folded as
a regular cost-basis entry: `quantity * (price || 0)` is added to the cost
basis, the quantity to the running quantity, and a strictly positive price
snapshot updates the last buy price. -/
theorem C10_no_trade_entry (e : LedgerEntry) (hn : e.tradeId = none) :
    (∀ ids : List Int, keepEntry ids e = true) ∧
      (∀ tids : Option (List Int), ∀ entries : List LedgerEntry,
        e ∈ entries → e ∈ filterTransfers tids entries) ∧
      (0 < e.amount → ∀ (trades : List Trade) (s : FoldState),
        foldStep trades s e =
          ⟨s.totalQty + e.amount, s.totalCost + e.amount * priceOf e,
           if 0 < priceOf e then priceOf e else s.lastBuy⟩) := by
  refine ⟨fun ids => ?_, fun tids entries he => ?_, fun hpos trades s => ?_⟩
  · simp [keepEntry, hn]
  · cases tids with
    | none => simpa [filterTransfers] using he
    | some ids => simp [filterTransfers, List.mem_filter, he, keepEntry, hn]
  · simp [foldStep, hpos, entryTradeType, hn]

/-- C10 witness: the filter and the fold step at a concrete no-trade entry. -/
theorem C10_no_trade_entry_witness :
    keepEntry [5] ⟨some 1, none, "BTC", 2, some 3⟩ = true ∧
      foldStep [] ⟨1, 1, 1⟩ ⟨some 1, none, "BTC", 2, some 3⟩ =
        ⟨1 + 2, 1 + 2 * priceOf ⟨some 1, none, "BTC", 2, some 3⟩,
         if 0 < priceOf ⟨some 1, none, "BTC", 2, some 3⟩
         then priceOf ⟨some 1, none, "BTC", 2, some 3⟩ else 1⟩ :=
  ⟨(C10_no_trade_entry ⟨some 1, none, "BTC", 2, some 3⟩ rfl).1 [5],
   (C10_no_trade_entry ⟨some 1, none, "BTC", 2, some 3⟩ rfl).2.2 (by norm_num) [] ⟨1, 1, 1⟩⟩

theorem mem_insortEntry {x e : LedgerEntry} {l : List LedgerEntry} :
    x ∈ insortEntry e l ↔ x = e ∨ x ∈ l := by
  induction l with
  | nil => simp [insortEntry]
  | cons a as ih =>
    by_cases h : entryKey a ≤ entryKey e
    · simp only [insortEntry, if_pos h, List.mem_cons, ih]
      tauto
    · simp only [insortEntry, if_neg h, List.mem_cons]

theorem mem_insertAll {x : LedgerEntry} (l : List LedgerEntry) : ∀ acc,
    (x ∈ insertAll acc l ↔ x ∈ acc ∨ x ∈ l) := by
  induction l with
  | nil => intro acc; simp [insertAll]
  | cons e es ih =>
    intro acc
    rw [insertAll, ih, mem_insortEntry]
    simp only [List.mem_cons]
    tauto

theorem mem_sortEntries {x : LedgerEntry} {l : List LedgerEntry} :
    x ∈ sortEntries l ↔ x ∈ l := by
  simp [sortEntries, mem_insertAll]

theorem insortEntry_eq_append {g : LedgerEntry} {l : List LedgerEntry}
    (h : ∀ x ∈ l, entryKey x ≤ entryKey g) : insortEntry g l = l ++ [g] := by
  induction l with
  | nil => simp [insortEntry]
  | cons a as ih =>
    have ha : entryKey a ≤ entryKey g := h a (by simp)
    simp [insortEntry, ha, ih (fun x hx => h x (by simp [hx]))]

theorem insertAll_append (l1 l2 : List LedgerEntry) : ∀ acc,
    insertAll acc (l1 ++ l2) = insertAll (insertAll acc l1) l2 := by
  induction l1 with
  | nil => intro acc; simp [insertAll]
  | cons e es ih => intro acc; rw [List.cons_append, insertAll, insertAll, ih]

theorem sortEntries_append_last {l : List LedgerEntry} {g : LedgerEntry}
    (h : ∀ x ∈ l, entryKey x ≤ entryKey g) :
    sortEntries (l ++ [g]) = sortEntries l ++ [g] := by
  rw [sortEntries, insertAll_append, insertAll, insertAll]
  exact insortEntry_eq_append (fun x hx => h x (mem_sortEntries.mp hx))

theorem dustSnap_of_not_lt {s : FoldState} (h : ¬ |s.totalQty| < dustEps) :
    dustSnap s = s := by
  simp [dustSnap, h]

theorem finishTicker_eq_some {ticker : String} {s : FoldState} {h : AssetHolding} :
    finishTicker ticker s = some h ↔
      0 < (dustSnap s).totalQty ∧
        h = ⟨ticker, (dustSnap s).totalQty,
              (dustSnap s).totalCost / (dustSnap s).totalQty,
              (dustSnap s).lastBuy, (dustSnap s).totalCost⟩ := by
  unfold finishTicker
  by_cases hpos : 0 < (dustSnap s).totalQty <;> simp [hpos, eq_comm]

theorem foldStep_gain (trades : List Trade) (s : FoldState) (g : LedgerEntry)
    (hq : 0 < g.amount) (hg : entryTradeType trades g = some "gain") :
    foldStep trades s g = { s with totalQty := s.totalQty + g.amount } := by
  simp [foldStep, hq, hg]

/-- C4 scenario: a buy of 1 BTC at $10 followed by a gain entry of 1 BTC. -/
def c4Entries : List LedgerEntry :=
  [⟨some 1, some 1, "BTC", 1, some 10⟩, ⟨some 2, some 2, "BTC", 1, none⟩]

/-- Parent trades of the C4 scenario: a buy, then a gain. -/
def c4Trades : List Trade := [⟨some 1, "buy", 0⟩, ⟨some 2, "gain", 1⟩]

/-- C4 counterexample: with a pre-existing holding of 1 BTC at average buy
price $10 (cost basis $10), inserting a gain entry of 1 BTC yields average
buy price $5, not $10: a gain insertion does change `avgBuyPrice` of the
pre-existing holding (quantity, cost basis and last buy price behave as
claimed, but the per-unit average necessarily rescales). -/
theorem C4_counterexample :
    calculateHoldings [⟨some 1, some 1, "BTC", 1, some 10⟩] c4Trades (some []) =
        [⟨"BTC", 1, 10, 10, 10⟩] ∧
      calculateHoldings c4Entries c4Trades (some []) = [⟨"BTC", 2, 5, 10, 10⟩] ∧
      (10 : Rat) ≠ 5 := by
  refine ⟨?_, ?_, by norm_num⟩ <;>
    · simp [calculateHoldings, filterTransfers, keepEntry, tickersIn, holdingsForTicker,
        foldEntries, sortEntries, insertAll, insortEntry, entryKey, foldStep, entryTradeType,
        tradeTypeOf, tradeTypeStep, priceOf, finishTicker, dustSnap, dustEps, initState, sortHoldings,
        insortHolding, c4Entries, c4Trades, List.filterMap_cons, List.filter_cons]
      norm_num [insortHolding]

/-- C4 (amended): appending one positive `gain` entry of quantity q, with id
at least every existing id (so it is folded last), to a single-asset history
that already yields a holding leaves `totalCostBasis` and `lastBuyPrice`
unchanged and increases `amount` by exactly q; the average buy price becomes
`totalCostBasis / (amount + q)`, so it drops whenever the cost basis is
positive. -/
theorem C4_gain_append (trades : List Trade) (ticker : String)
    (l : List LedgerEntry) (g : LedgerEntry) (h : AssetHolding)
    (hq : 0 < g.amount)
    (hg : entryTradeType trades g = some "gain")
    (hid : ∀ e ∈ l, entryKey e ≤ entryKey g)
    (hh : holdingsForTicker trades ticker l = some h) :
    holdingsForTicker trades ticker (l ++ [g]) =
      some ⟨ticker, h.amount + g.amount, h.totalCostBasis / (h.amount + g.amount),
            h.lastBuyPrice, h.totalCostBasis⟩ := by
  have hsor : sortEntries (l ++ [g]) = sortEntries l ++ [g] := sortEntries_append_last hid
  have hstep : foldEntries trades (sortEntries (l ++ [g]))
      = { foldEntries trades (sortEntries l) with
            totalQty := (foldEntries trades (sortEntries l)).totalQty + g.amount } := by
    rw [hsor]
    unfold foldEntries
    rw [List.foldl_append, List.foldl_cons, List.foldl_nil]
    exact foldStep_gain trades _ g hq hg
  unfold holdingsForTicker at hh ⊢
  rw [hstep]
  set s := foldEntries trades (sortEntries l) with hs
  rw [finishTicker_eq_some] at hh
  obtain ⟨hpos0, rfl⟩ := hh
  by_cases hsnap : |s.totalQty| < dustEps
  · rw [dustSnap, if_pos hsnap] at hpos0
    exact absurd hpos0 (by norm_num)
  · rw [dustSnap_of_not_lt hsnap] at hpos0 ⊢
    have habs : |s.totalQty| = s.totalQty := abs_of_pos hpos0
    have heps : dustEps ≤ s.totalQty := habs ▸ not_lt.mp hsnap
    have hpos2 : 0 < s.totalQty + g.amount := by linarith
    have hsnap2 : ¬ |FoldState.totalQty { s with totalQty := s.totalQty + g.amount }| < dustEps := by
      have : dustEps ≤ s.totalQty + g.amount := by linarith
      simpa [abs_of_pos hpos2] using not_lt.mpr this
    rw [finishTicker_eq_some, dustSnap_of_not_lt hsnap2]
    exact ⟨hpos2, rfl⟩

/-- C4 witness: the amended gain-append statement at the concrete C4
scenario (buy 1 BTC @ $10, then append a gain of 1 BTC). -/
theorem C4_gain_append_witness :
    holdingsForTicker c4Trades "BTC"
        ([⟨some 1, some 1, "BTC", 1, some 10⟩] ++ [⟨some 2, some 2, "BTC", 1, none⟩]) =
      some ⟨"BTC", 1 + 1, 10 / (1 + 1), 10, 10⟩ :=
  C4_gain_append c4Trades "BTC" [⟨some 1, some 1, "BTC", 1, some 10⟩]
    ⟨some 2, some 2, "BTC", 1, none⟩ ⟨"BTC", 1, 10, 10, 10⟩
    (by norm_num)
    (by decide)
    (by decide)
    (by
      simp [holdingsForTicker, foldEntries, sortEntries, insertAll, insortEntry, entryKey,
        foldStep, entryTradeType, tradeTypeOf, tradeTypeStep, priceOf, finishTicker, dustSnap, dustEps,
        initState, c4Trades]
      norm_num)

/-- Division-guard instrumentation of the fold for C3: the Boolean records,
at every negative-entry step whose branch executes the division
`totalCost / totalQty`, that the denominator is nonzero (the source divides
only under the guard `totalQty > 0`). -/
def foldStepChecked (trades : List Trade) (sb : FoldState × Bool) (e : LedgerEntry) :
    FoldState × Bool :=
  (foldStep trades sb.1 e,
   sb.2 && (if 0 < e.amount then true
            else if 0 < sb.1.totalQty then decide (sb.1.totalQty ≠ 0) else true))

theorem foldStepChecked_ok (trades : List Trade) :
    ∀ (l : List LedgerEntry) (sb : FoldState × Bool), sb.2 = true →
      (l.foldl (foldStepChecked trades) sb).2 = true := by
  intro l
  induction l with
  | nil => intro sb h; simpa using h
  | cons e es ih =>
    intro sb h
    rw [List.foldl_cons]
    apply ih
    simp only [foldStepChecked, h, Bool.true_and]
    by_cases h1 : 0 < e.amount
    · simp [h1]
    · by_cases h2 : 0 < sb.1.totalQty
      · simp [h1, h2, ne_of_gt h2]
      · simp [h1, h2]

theorem foldStep_cost_nonneg (trades : List Trade) (s : FoldState) (e : LedgerEntry)
    (hc : 0 ≤ s.totalCost) (hp : 0 ≤ priceOf e)
    (hq' : 0 ≤ (foldStep trades s e).totalQty) :
    0 ≤ (foldStep trades s e).totalCost := by
  unfold foldStep at hq' ⊢
  by_cases hpos : 0 < e.amount
  · by_cases hgain : entryTradeType trades e = some "gain"
    · simpa [hpos, hgain] using hc
    · simp only [if_pos hpos, if_neg hgain]
      exact add_nonneg hc (mul_nonneg hpos.le hp)
  · simp only [if_neg hpos] at hq' ⊢
    by_cases hq2 : 0 < s.totalQty
    · simp only [if_pos hq2] at hq' ⊢
      have h0 : s.totalQty ≠ 0 := ne_of_gt hq2
      have hkey : s.totalCost - |e.amount| * (s.totalCost / s.totalQty)
          = s.totalCost * (s.totalQty - |e.amount|) / s.totalQty := by
        field_simp
        ring
      rw [hkey]
      exact div_nonneg (mul_nonneg hc hq') hq2.le
    · simp only [if_neg hq2]
      simpa using hc

theorem dustSnap_nonneg {s : FoldState} (hq : 0 ≤ s.totalQty) (hc : 0 ≤ s.totalCost) :
    0 ≤ (dustSnap s).totalQty ∧ 0 ≤ (dustSnap s).totalCost := by
  unfold dustSnap
  by_cases hsnap : |s.totalQty| < dustEps
  · simp [hsnap]
  · simpa [hsnap] using ⟨hq, hc⟩

theorem fold_nonneg_aux (trades : List Trade) :
    ∀ (l : List LedgerEntry) (s : FoldState),
      0 ≤ s.totalQty → 0 ≤ s.totalCost →
      (∀ e ∈ l, 0 ≤ priceOf e) →
      (∀ p ∈ l.inits, 0 ≤ (p.foldl (foldStep trades) s).totalQty) →
      0 ≤ (l.foldl (foldStep trades) s).totalQty ∧
        0 ≤ (l.foldl (foldStep trades) s).totalCost
  | [], s, hq, hc, _, _ => by simpa using ⟨hq, hc⟩
  | e :: es, s, _, hc, hprice, hpre => by
    rw [List.foldl_cons]
    have hq1 : 0 ≤ (foldStep trades s e).totalQty := by
      have h1 := hpre [e] ((List.mem_inits _ _).mpr ⟨es, rfl⟩)
      simpa using h1
    have hc1 : 0 ≤ (foldStep trades s e).totalCost :=
      foldStep_cost_nonneg trades s e hc (hprice e (by simp)) hq1
    refine fold_nonneg_aux trades es (foldStep trades s e) hq1 hc1
      (fun x hx => hprice x (by simp [hx])) (fun p hp => ?_)
    have hp2 : (e :: p) ∈ (e :: es).inits := by
      rw [List.mem_inits] at hp ⊢
      obtain ⟨t, ht⟩ := hp
      exact ⟨t, by simp [ht]⟩
    have h2 := hpre (e :: p) hp2
    simpa using h2

/-- C3 counterexample: the single-entry sequence that sells 1 unit with
nothing held folds to quantity -1, which the dust-snap leaves untouched; the
post-fold quantity is negative, refuting the claim that quantity (and cost
basis) are always ≥ 0 after dust-snapping for arbitrary, over-selling,
sequences. -/
theorem C3_counterexample :
    (dustSnap (foldEntries [] [⟨some 1, none, "X", -1, none⟩])).totalQty < 0 := by
  norm_num [dustSnap, foldEntries, foldStep, initState, dustEps, priceOf]

/-- C3 (amended): for a single-asset entry sequence whose price snapshots are
all nonnegative and whose running quantity never becomes negative at any
prefix of the fold (no over-sell), the dust-snapped final quantity and cost
basis are both ≥ 0; and for EVERY sequence, over-selling included, each
average-price division executed by the fold has a nonzero denominator, so
no NaN/Infinity can arise from the depletion arithmetic. -/
theorem C3_depletion_invariant (trades : List Trade) (l : List LedgerEntry)
    (hprice : ∀ e ∈ l, 0 ≤ priceOf e)
    (hpre : ∀ p ∈ l.inits, 0 ≤ (foldEntries trades p).totalQty) :
    (0 ≤ (dustSnap (foldEntries trades l)).totalQty ∧
      0 ≤ (dustSnap (foldEntries trades l)).totalCost) ∧
      ∀ l' : List LedgerEntry,
        (l'.foldl (foldStepChecked trades) (initState, true)).2 = true := by
  have h := fold_nonneg_aux trades l initState (le_refl 0) (le_refl 0) hprice hpre
  have h2 := dustSnap_nonneg h.1 h.2
  exact ⟨⟨h2.1, h2.2⟩, fun l' => foldStepChecked_ok trades l' _ rfl⟩

/-- C3 witness: the amended invariant at the concrete one-buy sequence. -/
theorem C3_depletion_invariant_witness :
    (0 ≤ (dustSnap (foldEntries [] [⟨some 1, none, "A", 1, some 10⟩])).totalQty ∧
      0 ≤ (dustSnap (foldEntries [] [⟨some 1, none, "A", 1, some 10⟩])).totalCost) ∧
      ∀ l' : List LedgerEntry,
        (l'.foldl (foldStepChecked []) (initState, true)).2 = true :=
  C3_depletion_invariant [] [⟨some 1, none, "A", 1, some 10⟩]
    (by intro e he; simp at he; subst he; norm_num [priceOf])
    (by
      intro p hp
      simp [List.inits] at hp
      rcases hp with rfl | rfl
      · norm_num [foldEntries, initState]
      · norm_num [foldEntries, foldStep, initState, priceOf, entryTradeType]
        norm_num [show (none : Option String) ≠ some "gain" from fun h => by cases h])

/-- The per-sell-trade realized PnL contribution: among the ledger entries of
the trade, the first negative entry (sold leg) and the first positive entry
(received leg); a nonzero contribution only when both legs exist and the
sold leg carries a truthy (present, nonzero) price snapshot; the received
price falls back to 1 when absent or zero (the source's `|| 1`);
`contribution = receivedQty * receivedPrice - |soldQty| * soldPrice`. -/
def sellPnLContribution (ledger : List LedgerEntry) (trade : Trade) : Rat :=
  let tradeEntries := ledger.filter (fun e => e.tradeId == trade.id)
  match tradeEntries.find? (fun e => decide (e.amount < 0)),
      tradeEntries.find? (fun e => decide (0 < e.amount)) with
  | some se, some re =>
    (match se.usdPriceAtTime with
     | some sp =>
       if sp ≠ 0 then
         re.amount * (match re.usdPriceAtTime with
           | some rp => if rp ≠ 0 then rp else 1
           | none => 1) - |se.amount| * sp
       else 0
     | none => 0)
  | _, _ => 0

/-- The Realized PnL Calculator: zero for an empty ledger or trade list, else
the accumulated contributions of the trades of kind `sell`. -/
def calculateRealizedPnL (ledger : List LedgerEntry) (trades : List Trade) : Rat :=
  if ledger = [] ∨ trades = [] then 0
  else
    (trades.filter (fun t => t.type == "sell")).foldl
      (fun acc t => acc + sellPnLContribution ledger t) 0

theorem foldl_add_contribution (ledger : List LedgerEntry) :
    ∀ (l : List Trade) (c : Rat),
      l.foldl (fun acc t => acc + sellPnLContribution ledger t) c =
        c + (l.map (sellPnLContribution ledger)).sum := by
  intro l
  induction l with
  | nil => intro c; simp
  | cons t ts ih => intro c; rw [List.foldl_cons, List.map_cons, List.sum_cons, ih]; ring

theorem sellPnLContribution_nil (trade : Trade) :
    sellPnLContribution [] trade = 0 := by
  simp [sellPnLContribution]

/-- C5 BTC example: sell 2 BTC at snapshot $30,000 for 60,000 USDC (price 1). -/
def c5BtcLedger : List LedgerEntry :=
  [⟨some 1, some 1, "BTC", -2, some 30000⟩, ⟨some 2, some 1, "USDC", 60000, some 1⟩]

/-- C5 ETH example: sell 1 ETH at snapshot $2,000 for 2,200 USDC (no price). -/
def c5EthLedger : List LedgerEntry :=
  [⟨some 1, some 1, "ETH", -1, some 2000⟩, ⟨some 2, some 1, "USDC", 2200, none⟩]

/-- The single sell trade of the C5 examples. -/
def c5Trades : List Trade := [⟨some 1, "sell", 0⟩]

/-- C5 counterexample ledger: sell 1 ETH @ $2,000 receiving 2,200 USDC whose
price snapshot is PRESENT but recorded as 0. -/
def c5ZeroLedger : List LedgerEntry :=
  [⟨some 1, some 1, "ETH", -1, some 2000⟩, ⟨some 2, some 1, "USDC", 2200, some 0⟩]

/-- C5 counterexample: with a received-leg snapshot present but equal to 0,
the claim's `proceeds = receivedQty * (receivedPrice ?? 1)` yields
2200 * 0 - 2000 = -2000, while the source computes `|| 1`, treats the zero
snapshot as absent, and yields 2200 * 1 - 2000 = +200; so the claimed `?? 1`
semantics does not match the code on zero-valued snapshots. -/
theorem C5_counterexample :
    calculateRealizedPnL c5ZeroLedger c5Trades = 200 ∧
      (2200 * (0 : Rat) - 1 * 2000) ≠ 200 := by
  refine ⟨?_, by norm_num⟩
  simp [calculateRealizedPnL, c5ZeroLedger, c5Trades, sellPnLContribution,
    List.filter_cons, List.find?]
  norm_num

/-- C5 (amended): the Realized PnL Calculator sums, over exactly the trades
of kind `sell`, the contribution `proceeds - costBasis`, where a trade
missing either leg or whose sold leg lacks a nonzero price snapshot
contributes exactly zero, `costBasis = |soldQty| * soldPrice`, and
`proceeds = receivedQty * receivedPrice-with-|| 1-default` (a present but
zero received price also defaults to 1); in particular the 2-BTC example
contributes 0 and the 1-ETH example contributes +200. -/
theorem C5_realized_pnl :
    (∀ (ledger : List LedgerEntry) (trades : List Trade),
      calculateRealizedPnL ledger trades =
        ((trades.filter (fun t => t.type == "sell")).map
          (sellPnLContribution ledger)).sum) ∧
      calculateRealizedPnL c5BtcLedger c5Trades = 0 ∧
      calculateRealizedPnL c5EthLedger c5Trades = 200 := by
  refine ⟨fun ledger trades => ?_, ?_, ?_⟩
  · unfold calculateRealizedPnL
    by_cases h : ledger = [] ∨ trades = []
    · rw [if_pos h]
      rcases h with rfl | rfl
      · rw [List.sum_eq_zero]
        intro x hx
        rw [List.mem_map] at hx
        obtain ⟨t, _, rfl⟩ := hx
        exact sellPnLContribution_nil t
      · simp
    · rw [if_neg h, foldl_add_contribution, zero_add]
  · simp [calculateRealizedPnL, c5BtcLedger, c5Trades, sellPnLContribution,
      List.filter_cons, List.find?]
    norm_num
  · simp [calculateRealizedPnL, c5EthLedger, c5Trades, sellPnLContribution,
      List.filter_cons, List.find?]
    norm_num

/-- First-match association lookup: a JS object/record read, keyed by `k`. -/
def assocLookup {α β : Type} [DecidableEq α] (k : α) : List (α × β) → Option β
  | [] => none
  | p :: ps => if p.1 = k then some p.2 else assocLookup k ps

/-- Ascending sort of the available dates (the source sorts ISO date strings,
which order exactly as the day indices modelling them). -/
def sortInts (l : List Int) : List Int := List.insertionSort (· ≤ ·) l

/-- The exact-day close the resolver consults first; the source tests
`assetPrices && assetPrices[dateStr]` for truthiness, so an absent close, an
absent symbol and a zero close all read as 0. -/
def exactClose (assetPrices : Option (List (Int × Rat))) (d : Int) : Rat :=
  match assetPrices with
  | none => 0
  | some ap =>
    match assocLookup d ap with
    | some p => p
    | none => 0

/-- Forward-fill: the dates carrying strictly positive closes, sorted oldest
first, are scanned from the most recent down for the first date ≤ the
target; that date's close is returned (0 when no date qualifies). -/
def forwardFill (ap : List (Int × Rat)) (d : Int) : Rat :=
  match (sortInts ((ap.filter (fun q => decide (0 < q.2))).map Prod.fst)).reverse.find?
      (fun ad => decide (ad ≤ d)) with
  | some ad => (assocLookup ad ap).getD 0
  | none => 0

/-- The last-resort ledger fallback: among the already-date-filtered entries,
those of the holding's ticker with positive amount and truthy (present,
nonzero) price snapshot; the snapshot of the LAST such entry in ledger
order, `|| 0`; 0 when none exists. -/
def ledgerFallback (entriesUpToDate : List LedgerEntry) (ticker : String) : Rat :=
  match (entriesUpToDate.filter (fun e =>
      e.assetTicker == ticker && decide (0 < e.amount) &&
        (match e.usdPriceAtTime with
         | some p => decide (p ≠ 0)
         | none => false))).getLast? with
  | some e => e.usdPriceAtTime.getD 0
  | none => 0

/-- The past-day price resolution of the history replayer (its non-today
branch): the exact close when truthy, else the forward-fill over positive
closes, else the ledger fallback. -/
def resolvePastPrice (assetPrices : Option (List (Int × Rat))) (d : Int)
    (entriesUpToDate : List LedgerEntry) (ticker : String) : Rat :=
  if exactClose assetPrices d ≠ 0 then exactClose assetPrices d
  else
    let fallbackPrice :=
      match assetPrices with
      | some ap => forwardFill ap d
      | none => 0
    if fallbackPrice = 0 then ledgerFallback entriesUpToDate ticker
    else fallbackPrice

/-- The entries whose parent trade exists and whose (day-truncated) trade
date is on or before `d`; an entry whose trade reference resolves to no
trade is dropped. -/
def entriesUpTo (ledger : List LedgerEntry) (trades : List Trade) (d : Int) :
    List LedgerEntry :=
  ledger.filter (fun e =>
    match trades.find? (fun t => t.id == e.tradeId) with
    | none => false
    | some tr => decide (tr.date ≤ d))

/-- One day of the history replay: the day's date-filtered entries, the
holdings recomputed from them, and the day's total value — live price
(`|| 0`) when the day is today, `resolvePastPrice` otherwise. -/
def dayPoint (ledger : List LedgerEntry) (trades : List Trade)
    (transferTradeIds : List Int) (livePrices : List (String × Rat)) (today : Int)
    (historicalPrices : List (String × List (Int × Rat))) (currentDate : Int) :
    Int × Rat :=
  (currentDate,
    (calculateHoldings (entriesUpTo ledger trades currentDate) trades
        (some transferTradeIds)).foldl (fun acc h =>
      acc + h.amount *
        (if currentDate = today then (assocLookup h.ticker livePrices).getD 0
         else resolvePastPrice (assocLookup h.ticker historicalPrices) currentDate
           (entriesUpTo ledger trades currentDate) h.ticker)) 0)

/-- The Portfolio History Replayer: an empty ledger yields an empty series;
otherwise one point per day, oldest first, for the 31 days from today-30 to
today inclusive. -/
def calculatePortfolioHistory (ledger : List LedgerEntry) (trades : List Trade)
    (transferTradeIds : List Int) (livePrices : List (String × Rat))
    (today : Int) (historicalPrices : List (String × List (Int × Rat))) :
    List (Int × Rat) :=
  if ledger = [] then []
  else
    ((List.range 31).map (fun i => today - 30 + Int.ofNat i)).map
      (dayPoint ledger trades transferTradeIds livePrices today historicalPrices)

theorem calculateHoldings_nil (trades : List Trade) (tids : Option (List Int)) :
    calculateHoldings [] trades tids = [] := by
  cases tids <;> simp [calculateHoldings, filterTransfers, tickersIn, sortHoldings]

theorem entriesUpTo_nil_trades (ledger : List LedgerEntry) (d : Int) :
    entriesUpTo ledger [] d = [] := by
  simp [entriesUpTo]

/-- C6 counterexample: with an empty ledger-entry list the replayer returns
the empty series (the source returns [] before building any dates), not a
31-point zero-valued series as the claim asserts. -/
theorem C6_counterexample :
    calculatePortfolioHistory [] [] [] [] 0 [] = [] ∧
      ¬ (calculatePortfolioHistory [] [] [] [] 0 []).length = 31 := by
  constructor
  · simp [calculatePortfolioHistory]
  · simp [calculatePortfolioHistory]

/-- C6 (amended): with an EMPTY ledger-entry list `computeHistory` returns an
empty series, not a 31-point zero-valued one; with a nonempty ledger it
returns exactly 31 points, one per calendar day from today-30 to today
inclusive of both endpoints, ordered oldest to newest; and when no entry
resolves to a parent trade (for instance, an empty trade list), every
returned value is 0. -/
theorem C6_history_window (ledger : List LedgerEntry) (trades : List Trade)
    (tids : List Int) (live : List (String × Rat)) (today : Int)
    (hist : List (String × List (Int × Rat))) (hl : ledger ≠ []) :
    (calculatePortfolioHistory ledger trades tids live today hist).map Prod.fst =
        (List.range 31).map (fun i => today - 30 + Int.ofNat i) ∧
      (calculatePortfolioHistory ledger trades tids live today hist).length = 31 ∧
      calculatePortfolioHistory [] trades tids live today hist = [] ∧
      ∀ pt ∈ calculatePortfolioHistory ledger [] tids live today hist, pt.2 = 0 := by
  refine ⟨?_, ?_, by simp [calculatePortfolioHistory], ?_⟩
  · simp [calculatePortfolioHistory, hl, List.map_map, Function.comp, dayPoint]
  · rw [calculatePortfolioHistory, if_neg hl, List.length_map, List.length_map,
      List.length_range]
  · intro pt hpt
    rw [calculatePortfolioHistory, if_neg hl, List.mem_map] at hpt
    obtain ⟨d, _, rfl⟩ := hpt
    simp [dayPoint, entriesUpTo_nil_trades, calculateHoldings_nil]

/-- C6 witness: the window shape of the series for a one-entry ledger. -/
theorem C6_history_window_witness :
    (calculatePortfolioHistory [⟨some 1, some 1, "BTC", 1, some 10⟩] [] [] [] 0 []).map
        Prod.fst = (List.range 31).map (fun i => (0 : Int) - 30 + Int.ofNat i) :=
  (C6_history_window [⟨some 1, some 1, "BTC", 1, some 10⟩] [] [] [] 0 [] (by simp)).1

theorem dayPoint_today (ledger : List LedgerEntry) (trades : List Trade)
    (tids : List Int) (live : List (String × Rat)) (today : Int)
    (hist : List (String × List (Int × Rat))) :
    dayPoint ledger trades tids live today hist today =
      (today,
        (calculateHoldings (entriesUpTo ledger trades today) trades (some tids)).foldl
          (fun acc h => acc + h.amount * (assocLookup h.ticker live).getD 0) 0) := by
  simp [dayPoint]

theorem history_today_point (ledger : List LedgerEntry) (trades : List Trade)
    (tids : List Int) (live : List (String × Rat)) (today : Int)
    (hist : List (String × List (Int × Rat))) (hl : ledger ≠ []) :
    (calculatePortfolioHistory ledger trades tids live today hist).getLast? =
      some (today,
        (calculateHoldings (entriesUpTo ledger trades today) trades (some tids)).foldl
          (fun acc h => acc + h.amount * (assocLookup h.ticker live).getD 0) 0) := by
  rw [calculatePortfolioHistory, if_neg hl, List.getLast?_map, List.getLast?_map]
  have h31 : (List.range 31).getLast? = some 30 := by decide
  rw [h31]
  have hdate : today - 30 + Int.ofNat 30 = today := by
    have h30 : Int.ofNat 30 = (30 : Int) := rfl
    rw [h30]
    ring
  simp only [Option.map_some']
  rw [hdate, dayPoint_today]

/-- C8 scenario ledger: one BTC bought today at snapshot $100. -/
def c8Ledger : List LedgerEntry := [⟨some 1, some 1, "BTC", 1, some 100⟩]

/-- C8 scenario trade, dated today (day 0). -/
def c8Trades : List Trade := [⟨some 1, "buy", 0⟩]

/-- C8 scenario historical closes: BTC closed at $50 on day 0 (today). -/
def c8Hist : List (String × List (Int × Rat)) := [("BTC", [(0, 50)])]

/-- C8 counterexample: on today (day 0), holding 1 BTC, with NO live price
for BTC but a historical close of 50 for today available, the replayer
values today at 0 — the past-day resolution chain (which would return 50)
is never consulted, so live unavailability on today short-circuits to zero
rather than continuing through the remaining fallbacks as claimed. -/
theorem C8_counterexample :
    (calculatePortfolioHistory c8Ledger c8Trades [] [] 0 c8Hist).getLast? =
        some (0, 0) ∧
      resolvePastPrice (assocLookup "BTC" c8Hist) 0 (entriesUpTo c8Ledger c8Trades 0)
          "BTC" = 50 ∧
      ((0 : Rat) ≠ 1 * 50) := by
  refine ⟨?_, ?_, by norm_num⟩
  · rw [history_today_point _ _ _ _ _ _ (by simp [c8Ledger])]
    norm_num [entriesUpTo, c8Ledger, c8Trades, calculateHoldings, filterTransfers, keepEntry,
      tickersIn, holdingsForTicker, foldEntries, sortEntries, insertAll, insortEntry,
      entryKey, foldStep, entryTradeType, tradeTypeOf, tradeTypeStep, priceOf, finishTicker,
      dustSnap, dustEps, initState, sortHoldings, insortHolding, assocLookup,
      List.filterMap_cons, List.filter_cons]
  · norm_num [resolvePastPrice, exactClose, assocLookup, c8Hist]

/-- C8 (amended): on past days the chain close → forward-fill → ledger
snapshot → 0 is used; on today, however, the replayer consults ONLY the live
feed with a `|| 0` default: the today point equals the sum over today's
holdings of amount times the live price defaulted to 0, with historical
closes and ledger snapshots never consulted for today; no error is raised
either way. -/
theorem C8_today_uses_live_only (ledger : List LedgerEntry) (trades : List Trade)
    (tids : List Int) (live : List (String × Rat)) (today : Int)
    (hist : List (String × List (Int × Rat))) (hl : ledger ≠ []) :
    (calculatePortfolioHistory ledger trades tids live today hist).getLast? =
      some (today,
        (calculateHoldings (entriesUpTo ledger trades today) trades (some tids)).foldl
          (fun acc h => acc + h.amount * (assocLookup h.ticker live).getD 0) 0) :=
  history_today_point ledger trades tids live today hist hl

/-- C8 witness: the today point of the C8 scenario series via the amended
statement. -/
theorem C8_today_uses_live_only_witness :
    (calculatePortfolioHistory c8Ledger c8Trades [] [] 0 c8Hist).getLast? =
      some (0,
        (calculateHoldings (entriesUpTo c8Ledger c8Trades 0) c8Trades (some [])).foldl
          (fun acc h =>
            acc + h.amount * (assocLookup h.ticker ([] : List (String × Rat))).getD 0) 0) :=
  C8_today_uses_live_only c8Ledger c8Trades [] [] 0 c8Hist (by simp [c8Ledger])

theorem entriesUpTo_append_dangling {ledger : List LedgerEntry} {trades : List Trade}
    {e : LedgerEntry} (he : trades.find? (fun t => t.id == e.tradeId) = none) (d : Int) :
    entriesUpTo (ledger ++ [e]) trades d = entriesUpTo ledger trades d := by
  unfold entriesUpTo
  rw [List.filter_append]
  simp [he]

theorem foldl_tradeTypeStep_skip {tid : Int} :
    ∀ (trades : List Trade) (acc : Option String),
      (∀ t ∈ trades, t.id ≠ some tid) →
      trades.foldl (tradeTypeStep tid) acc = acc := by
  intro trades
  induction trades with
  | nil => intro acc _; rfl
  | cons tr trs ih =>
    intro acc h
    rw [List.foldl_cons]
    have hstep : tradeTypeStep tid acc tr = acc := by
      have hne := h tr (by simp)
      unfold tradeTypeStep
      cases htr : tr.id with
      | none => rfl
      | some i =>
        have hne2 : i ≠ tid := fun hh => hne (by rw [htr, hh])
        simp [hne2]
    rw [hstep]
    exact ih acc (fun t ht => h t (by simp [ht]))

theorem entryTradeType_of_dangling {trades : List Trade} {e : LedgerEntry}
    (he : trades.find? (fun t => t.id == e.tradeId) = none) :
    entryTradeType trades e = none := by
  have hall := List.find?_eq_none.mp he
  unfold entryTradeType
  cases hh : e.tradeId with
  | none => rfl
  | some tid =>
    show tradeTypeOf trades tid = none
    unfold tradeTypeOf
    apply foldl_tradeTypeStep_skip
    intro t ht hid
    apply hall t ht
    rw [hid, hh]
    simp

/-- C9 counterexample: the one-entry ledger whose entry references the
nonexistent trade 99 still yields a holding of 1 BTC with cost basis $10:
the dangling entry is NOT excluded from the Holdings Calculator (it folds as
a regular entry), contradicting "contributes nothing to computed
holdings". -/
theorem C9_counterexample :
    calculateHoldings [⟨some 1, some 99, "BTC", 1, some 10⟩] [] (some []) =
        [⟨"BTC", 1, 10, 10, 10⟩] ∧
      ([⟨"BTC", 1, 10, 10, 10⟩] : List AssetHolding) ≠ [] := by
  refine ⟨?_, by simp⟩
  simp [calculateHoldings, filterTransfers, keepEntry, tickersIn, holdingsForTicker,
    foldEntries, sortEntries, insertAll, insortEntry, entryKey, foldStep, entryTradeType,
    tradeTypeOf, tradeTypeStep, priceOf, finishTicker, dustSnap, dustEps, initState,
    sortHoldings, insortHolding, List.filterMap_cons, List.filter_cons]
  norm_num [insortHolding]

/-- C9 (amended): a ledger entry whose tradeId references no existing trade
is silently excluded from the Portfolio History Replayer — appending it to a
nonempty ledger leaves the whole 31-point series unchanged — but the
Holdings Calculator RETAINS it and, when its quantity is positive, folds it
as a regular (non-gain) cost-basis entry; no error is raised by either
computation. -/
theorem C9_dangling_trade (ledger : List LedgerEntry) (trades : List Trade)
    (tids : List Int) (live : List (String × Rat)) (today : Int)
    (hist : List (String × List (Int × Rat))) (e : LedgerEntry)
    (hl : ledger ≠ [])
    (he : trades.find? (fun t => t.id == e.tradeId) = none) :
    calculatePortfolioHistory (ledger ++ [e]) trades tids live today hist =
        calculatePortfolioHistory ledger trades tids live today hist ∧
      (0 < e.amount → ∀ s : FoldState,
        foldStep trades s e =
          ⟨s.totalQty + e.amount, s.totalCost + e.amount * priceOf e,
           if 0 < priceOf e then priceOf e else s.lastBuy⟩) := by
  constructor
  · have hl2 : ledger ++ [e] ≠ [] := by simp
    rw [calculatePortfolioHistory, calculatePortfolioHistory, if_neg hl2, if_neg hl]
    have hday : dayPoint (ledger ++ [e]) trades tids live today hist =
        dayPoint ledger trades tids live today hist := by
      funext d
      unfold dayPoint
      rw [entriesUpTo_append_dangling he]
    rw [hday]
  · intro hpos s
    have hg : entryTradeType trades e = none := entryTradeType_of_dangling he
    simp [foldStep, hpos, hg]

/-- C9 witness: the amended statement at a concrete ledger with a dangling
entry referencing trade 99. -/
theorem C9_dangling_trade_witness :
    calculatePortfolioHistory
          ([⟨some 1, some 1, "BTC", 1, some 10⟩] ++ [⟨some 2, some 99, "BTC", 1, some 10⟩])
          [⟨some 1, "buy", 0⟩] [] [] 0 [] =
        calculatePortfolioHistory [⟨some 1, some 1, "BTC", 1, some 10⟩]
          [⟨some 1, "buy", 0⟩] [] [] 0 [] ∧
      (0 < (⟨some 2, some 99, "BTC", 1, some 10⟩ : LedgerEntry).amount →
        ∀ s : FoldState,
          foldStep [⟨some 1, "buy", 0⟩] s ⟨some 2, some 99, "BTC", 1, some 10⟩ =
            ⟨s.totalQty + (⟨some 2, some 99, "BTC", 1, some 10⟩ : LedgerEntry).amount,
             s.totalCost + (⟨some 2, some 99, "BTC", 1, some 10⟩ : LedgerEntry).amount *
               priceOf ⟨some 2, some 99, "BTC", 1, some 10⟩,
             if 0 < priceOf ⟨some 2, some 99, "BTC", 1, some 10⟩
             then priceOf ⟨some 2, some 99, "BTC", 1, some 10⟩ else s.lastBuy⟩) :=
  C9_dangling_trade [⟨some 1, some 1, "BTC", 1, some 10⟩] [⟨some 1, "buy", 0⟩] [] [] 0 []
    ⟨some 2, some 99, "BTC", 1, some 10⟩ (by simp) (by decide)

theorem assocLookup_eq_of_nodup {α β : Type} [DecidableEq α] {l : List (α × β)}
    {k : α} {v : β} (hnodup : (l.map Prod.fst).Nodup) (hmem : (k, v) ∈ l) :
    assocLookup k l = some v := by
  induction l with
  | nil => simp at hmem
  | cons p ps ih =>
    rcases List.mem_cons.mp hmem with heq | hmem'
    · rw [← heq]
      simp [assocLookup]
    · rw [List.map_cons, List.nodup_cons] at hnodup
      have hne : p.1 ≠ k := by
        intro hh
        apply hnodup.1
        rw [hh]
        exact List.mem_map_of_mem Prod.fst hmem'
      simp [assocLookup, hne, ih hnodup.2 hmem']

theorem find_first_le_of_desc {d : Int} :
    ∀ (M : List Int) (d' : Int), M.Pairwise (fun a b => b ≤ a) → d' ∈ M → d' ≤ d →
      (∀ x ∈ M, x ≤ d → x ≤ d') →
      M.find? (fun x => decide (x ≤ d)) = some d' := by
  intro M
  induction M with
  | nil => intro d' _ hmem _ _; simp at hmem
  | cons m M' ih =>
    intro d' hpair hmem hle hub
    by_cases hm : m ≤ d
    · rw [List.find?_cons_of_pos _ (by simpa using hm)]
      have h1 : m ≤ d' := hub m (by simp) hm
      have h2 : d' ≤ m := by
        rcases List.mem_cons.mp hmem with rfl | hmem'
        · exact le_refl _
        · exact (List.pairwise_cons.mp hpair).1 d' hmem'
      rw [le_antisymm h2 h1]
    · rw [List.find?_cons_of_neg _ (by simpa using hm)]
      have hmem' : d' ∈ M' := by
        rcases List.mem_cons.mp hmem with rfl | h
        · exact absurd hle hm
        · exact h
      exact ih d' (List.pairwise_cons.mp hpair).2 hmem' hle
        (fun x hx hxd => hub x (by simp [hx]) hxd)

theorem mem_sortInts {x : Int} {l : List Int} : x ∈ sortInts l ↔ x ∈ l :=
  (List.perm_insertionSort _ l).mem_iff

theorem sortInts_sorted (l : List Int) : (sortInts l).Pairwise (fun a b => a ≤ b) :=
  List.sorted_insertionSort _ l

theorem forwardFill_eq {ap : List (Int × Rat)} {d d' : Int} {p' : Rat}
    (hnodup : (ap.map Prod.fst).Nodup)
    (hmem : (d', p') ∈ ap) (hp : 0 < p') (hle : d' ≤ d)
    (hub : ∀ q ∈ ap, 0 < q.2 → q.1 ≤ d → q.1 ≤ d') :
    forwardFill ap d = p' := by
  unfold forwardFill
  have hfind :
      ((sortInts ((ap.filter (fun q => decide (0 < q.2))).map Prod.fst)).reverse).find?
        (fun ad => decide (ad ≤ d)) = some d' := by
    apply find_first_le_of_desc
    · rw [List.pairwise_reverse]
      exact sortInts_sorted _
    · rw [List.mem_reverse, mem_sortInts, List.mem_map]
      exact ⟨(d', p'), by simp [List.mem_filter, hmem, hp]⟩
    · exact hle
    · intro x hx hxd
      rw [List.mem_reverse, mem_sortInts, List.mem_map] at hx
      obtain ⟨q, hq, rfl⟩ := hx
      rw [List.mem_filter] at hq
      exact hub q hq.1 (by simpa using hq.2) hxd
  rw [hfind]
  show (assocLookup d' ap).getD 0 = p'
  rw [assocLookup_eq_of_nodup hnodup hmem]
  rfl

theorem forwardFill_eq_zero {ap : List (Int × Rat)} {d : Int}
    (h : ∀ q ∈ ap, 0 < q.2 → ¬ q.1 ≤ d) : forwardFill ap d = 0 := by
  unfold forwardFill
  have hfind :
      ((sortInts ((ap.filter (fun q => decide (0 < q.2))).map Prod.fst)).reverse).find?
        (fun ad => decide (ad ≤ d)) = none := by
    rw [List.find?_eq_none]
    intro x hx
    rw [List.mem_reverse, mem_sortInts, List.mem_map] at hx
    obtain ⟨q, hq, rfl⟩ := hx
    rw [List.mem_filter] at hq
    simpa using h q hq.1 (by simpa using hq.2)
  rw [hfind]

/-- C7 (amended): for a past day d the resolver (i) returns the close for
exactly d when present and nonzero; (ii) when the exact close reads 0
(absent or zero), returns the most recent strictly positive close at or
before d when one exists — pure forward-fill, no interpolation, so with D's
close absent and D-2's present and positive and none between, D resolves to
exactly the D-2 close; (iii) with no positive close at or before d it falls
back to `ledgerFallback`: the snapshot of the LAST qualifying entry in
ledger order (not the most recent by trade date, as the claim words it),
else zero; (iv) with no close data for the symbol at all it goes straight to
the same ledger fallback. -/
theorem C7_price_resolution (ap : List (Int × Rat)) (d : Int)
    (es : List LedgerEntry) (tk : String) :
    (∀ p : Rat, assocLookup d ap = some p → p ≠ 0 →
        resolvePastPrice (some ap) d es tk = p) ∧
      (∀ (d' : Int) (p' : Rat), exactClose (some ap) d = 0 →
        (ap.map Prod.fst).Nodup → (d', p') ∈ ap → 0 < p' → d' ≤ d →
        (∀ q ∈ ap, 0 < q.2 → q.1 ≤ d → q.1 ≤ d') →
        resolvePastPrice (some ap) d es tk = p') ∧
      (exactClose (some ap) d = 0 → (∀ q ∈ ap, 0 < q.2 → ¬ q.1 ≤ d) →
        resolvePastPrice (some ap) d es tk = ledgerFallback es tk) ∧
      resolvePastPrice none d es tk = ledgerFallback es tk := by
  refine ⟨?_, ?_, ?_, ?_⟩
  · intro p hp hne
    have hex : exactClose (some ap) d = p := by simp [exactClose, hp]
    rw [resolvePastPrice, hex, if_pos hne]
  · intro d' p' hex hnodup hmem hp hle hub
    rw [resolvePastPrice, hex]
    simp [forwardFill_eq hnodup hmem hp hle hub, ne_of_gt hp]
  · intro hex hnone
    rw [resolvePastPrice, hex]
    simp [forwardFill_eq_zero hnone]
  · rw [resolvePastPrice]
    simp [exactClose]

/-- C7 witness: the forward-fill clause of the amended resolution at day 5
with the only (positive) close on day 3: day 5 resolves to exactly the
day-3 close. -/
theorem C7_price_resolution_witness :
    resolvePastPrice (some [((3 : Int), (50 : Rat))]) 5 [] "BTC" = 50 :=
  (C7_price_resolution [(3, 50)] 5 [] "BTC").2.1 3 50
    (by norm_num [exactClose, assocLookup])
    (by simp)
    (by simp)
    (by norm_num)
    (by norm_num)
    (by intro q hq _ _; simp at hq; rw [hq])

/-- Modelled from the spec's words for C7, for comparison only: "the most
recent positive price snapshot recorded on any ledger entry for `symbol`
dated on or before `date`" — maximizing the parent trade's date, rather
than taking the last entry in ledger order as the source does. -/
def mostRecentSnapshotSpec (ledger : List LedgerEntry) (trades : List Trade)
    (tk : String) (d : Int) : Rat :=
  match (ledger.filterMap (fun e =>
      if e.assetTicker = tk ∧ 0 < e.amount ∧ 0 < priceOf e then
        match trades.find? (fun t => t.id == e.tradeId) with
        | some tr => if tr.date ≤ d then some (tr.date, priceOf e) else none
        | none => none
      else none)).foldl (fun best c =>
        match best with
        | none => some c
        | some b => if b.1 ≤ c.1 then some c else some b) none with
  | some b => b.2
  | none => 0

/-- C7 counterexample ledger: two BTC entries; the first (in ledger order)
belongs to a trade dated day 5 with snapshot $100, the second to a BACKDATED
trade dated day 3 with snapshot $50. -/
def c7Ledger : List LedgerEntry :=
  [⟨some 1, some 1, "BTC", 1, some 100⟩, ⟨some 2, some 2, "BTC", 1, some 50⟩]

/-- Parent trades of the C7 counterexample; trade 2 is backdated. -/
def c7Trades : List Trade := [⟨some 1, "buy", 5⟩, ⟨some 2, "buy", 3⟩]

/-- C7 counterexample: with no historical closes, the source resolves day 5
from the LAST qualifying entry in ledger order and returns $50, whereas the
most recent snapshot by trade date — what the claim specifies — is the
day-5 trade's $100. -/
theorem C7_counterexample :
    resolvePastPrice none 5 (entriesUpTo c7Ledger c7Trades 5) "BTC" = 50 ∧
      mostRecentSnapshotSpec c7Ledger c7Trades "BTC" 5 = 100 ∧
      ((50 : Rat) ≠ 100) := by
  refine ⟨by decide, by decide, by decide⟩
